import Mathlib

/-!
# Verification of the `li` evaluator (src/li.py)

A shallow embedding of the value model, environment/closure model and
built-in function library of `li.py`, together with theorems settling the
spec claims about it.

The source is Python 2 (`dict.iteritems` appears in `Dict.__init__`), so
`map`/`filter` return eagerly materialized lists, and `dict` literals are
finite maps modelled here as association lists without duplicate keys.
Python object identity is not modelled; comparison of `Function` payloads
(identity-based in the source) is approximated structurally.
-/

set_option autoImplicit false

namespace Li

/-- Numeric payloads of the `Number` variant: Python `int`, `bool` and
`float` all collapse into `Number` (`LITERALS` table, li.py:212-220), and
the payload keeps whichever native scalar was supplied. Floats are
modelled as rationals. -/
inductive NumPay where
  | int (n : Int)
  | bool (b : Bool)
  | rat (q : Rat)
  deriving Repr, DecidableEq

mutual
/-- Runtime values (the `Type` hierarchy of li.py:84-191): `String`,
`Number`, `Null`, `List`, `Dict`, `Function`. A `List` payload is the
(eagerly evaluated) sequence of element values, a `Dict` payload is the
insertion-ordered key/value map, and a `Function` carries its parameter
names, its raw body statements (`_def`) and its captured defining
environment (`_env`). -/
inductive Value where
  | str (s : String)
  | num (p : NumPay)
  | null
  | list (xs : List Value)
  | dict (kvs : List (String × Value))
  | func (params : List String) (defn : List PyObj) (env : List (String × Value))

/-- Raw Python data as it reaches `Lit`/`_Eval`: native scalars and
containers, plus the case of an already-constructed runtime value
(`isinstance(val, Type)` in li.py:196). -/
inductive PyObj where
  | null
  | bool (b : Bool)
  | int (n : Int)
  | rat (q : Rat)
  | str (s : String)
  | list (xs : List PyObj)
  | dict (kvs : List (String × PyObj))
  | val (v : Value)
end

/-- An environment layer: a Python `dict` from names to values, modelled
as an insertion-ordered association list with no duplicate keys. -/
abbrev Env := List (String × Value)

/-- Python `d[k]`-style lookup in a dict modelled as an association list. -/
def dget (m : Env) (k : String) : Option Value :=
  match m with
  | [] => none
  | (k', v) :: rest => if k' = k then some v else dget rest k

/-- Python `d[k] = v`: replace the binding in place when the key is
present, append it otherwise (insertion-order semantics of a `dict`). -/
def dset (m : Env) (k : String) (v : Value) : Env :=
  match m with
  | [] => [(k, v)]
  | (k', v') :: rest => if k' = k then (k', v) :: rest else (k', v') :: dset rest k v

/-- Python `base.update(m)`: fold every binding of `m` into `base`. -/
def dupdate (base : Env) (m : Env) : Env :=
  m.foldl (fun acc kv => dset acc kv.1 kv.2) base

/-- Python `dict(pairs)`: insert the pairs in order into an empty dict. -/
def pyDict (l : List (String × Value)) : Env :=
  dupdate [] l

@[simp] theorem dget_nil (k : String) : dget [] k = none := rfl

@[simp] theorem dget_cons (k' k : String) (v : Value) (rest : Env) :
    dget ((k', v) :: rest) k = if k' = k then some v else dget rest k := rfl

@[simp] theorem dget_dset (m : Env) (k k' : String) (v : Value) :
    dget (dset m k v) k' = if k = k' then some v else dget m k' := by
  induction m with
  | nil =>
    simp [dset, dget]
  | cons hd tl ih =>
    obtain ⟨k₀, v₀⟩ := hd
    by_cases h₀ : k₀ = k
    · subst h₀
      by_cases h₁ : k₀ = k'
      · subst h₁; simp [dset, dget]
      · simp [dset, dget, h₁]
    · by_cases h₁ : k₀ = k'
      · subst h₁
        have hne : ¬k = k₀ := fun h => h₀ h.symm
        simp [dset, dget, h₀, hne]
      · simp [dset, dget, h₀, h₁, ih]

theorem dget_eq_none_of_forall (m : Env) (k : String)
    (h : ∀ p ∈ m, p.1 ≠ k) : dget m k = none := by
  induction m with
  | nil => rfl
  | cons hd tl ih =>
    simp only [dget]
    rw [if_neg (h hd (by simp))]
    exact ih (fun p hp => h p (by simp [hp]))

theorem dget_dupdate (base : Env) (m : Env) (k : String)
    (hm : (m.map Prod.fst).Nodup) :
    dget (dupdate base m) k = (dget m k).or (dget base k) := by
  induction m generalizing base with
  | nil => simp [dupdate, dget]
  | cons hd tl ih =>
    obtain ⟨k₀, v₀⟩ := hd
    simp only [List.map_cons, List.nodup_cons] at hm
    obtain ⟨hk₀, htl⟩ := hm
    show dget (dupdate (dset base k₀ v₀) tl) k = _
    rw [ih _ htl]
    by_cases h : k₀ = k
    · subst h
      have h1 : dget tl k₀ = none := dget_eq_none_of_forall tl k₀ (by
        intro p hp hpk
        exact hk₀ (hpk ▸ List.mem_map_of_mem Prod.fst hp))
      simp [dget, h1]
    · simp [dget, h]

/-- The two-layer call environment `Function._FunctionEnv`
(li.py:150-175): `val` is the function being applied (`og_func`),
`_env` the defining (captured) layer, `_run_env` the call layer. -/
structure FunctionEnv where
  val : Value
  _env : Env
  _run_env : Env

/-- Method `_FunctionEnv.copy` (li.py:156-160): build a fresh overlay dict by
updating an empty dict first with the defining layer, then with the call
layer (so call-layer bindings shadow defining-layer ones). -/
def FunctionEnv.copy (fe : FunctionEnv) : Env :=
  dupdate (dupdate [] fe._env) fe._run_env

/-- Method `_FunctionEnv.get` (li.py:165-166): look the key up in the overlay
copy, falling back to the default (`None` when omitted). The unchanged
environment is returned alongside the result to make the absence of
mutation explicit. -/
def FunctionEnv.get (fe : FunctionEnv) (k : String)
    (default : Option Value := none) : Option Value × FunctionEnv :=
  ((dget fe.copy k).or default, fe)

/-- Method `_FunctionEnv.__getitem__` (li.py:168-169): subscript lookup in the
overlay copy; `none` models the `KeyError` raised on a missing key. -/
def FunctionEnv.getItem (fe : FunctionEnv) (k : String) :
    Option Value × FunctionEnv :=
  (dget fe.copy k, fe)

/-- Method `_FunctionEnv.__setitem__` (li.py:171-175): write into the call layer
when the key is already call-bound or has no defining-layer binding;
otherwise mutate the defining layer in place. -/
def FunctionEnv.setItem (fe : FunctionEnv) (k : String) (v : Value) :
    FunctionEnv :=
  if (dget fe._run_env k).isSome || (dget fe._env k).isNone then
    { fe with _run_env := dset fe._run_env k v }
  else
    { fe with _env := dset fe._env k v }

/-- First-match lookup in a raw Python dict node. -/
def pget (m : List (String × PyObj)) (k : String) : Option PyObj :=
  match m with
  | [] => none
  | (k', v) :: rest => if k' = k then some v else pget rest k

/-- Field `params` read by `d.get('params', [])` of `Function.__init__` (li.py:179): the
parameter-name texts of a definition record, empty when absent. -/
def getParams (kvs : List (String × PyObj)) : List String :=
  match pget kvs "params" with
  | some (.list ps) => ps.filterMap (fun p => match p with
      | .str s => some s
      | _ => none)
  | _ => []

/-- Field `def` read by `d.get('def', [])` of `Function.__init__` (li.py:180): the raw body
statements of a definition record, empty when absent. -/
def getDefn (kvs : List (String × PyObj)) : List PyObj :=
  match pget kvs "def" with
  | some (.list l) => l
  | _ => []

/-- After a `Dict`'s values are evaluated, every value that is a
`Function` has its defining environment rebound to the dict's own payload
(li.py:122-124). The source rebinding aliases the live payload map; the
pure model snapshots the evaluated payload instead. -/
def rebindFuncs (payload : List (String × Value)) : List (String × Value) :=
  payload.map (fun kv => match kv.2 with
    | .func ps d _ => (kv.1, .func ps d payload)
    | v => (kv.1, v))

mutual
/-- Modelled from the spec: the evaluator core `_Eval` is referenced by
`List.__init__`, `Dict.__init__` and `_ExecList` but its body is not in
the available source. Per the spec's evaluator contract and strategy, an
already-evaluated Runtime Value evaluates to itself, a mapping node with
both `params` and `def` keys defines a `Function` capturing a snapshot of
the ambient environment, and every other node is a literal shape handled
by `Lit`. Reference, call and assignment node shapes are not recoverable
from the available material and are not modelled. -/
def _Eval (node : PyObj) (env : Env) : Value :=
  match node with
  | .dict kvs =>
    if (pget kvs "params").isSome && (pget kvs "def").isSome then
      Value.func (getParams kvs) (getDefn kvs) env
    else
      Lit (.dict kvs) env
  | x => Lit x env
termination_by (sizeOf node, 1)

/-- Constructor dispatch `Lit` (li.py:193-198): an already-constructed Runtime Value is
returned unchanged; otherwise dispatch on the raw payload's native type
through the `LITERALS` table (li.py:212-220). List and Dict construction
eagerly evaluate their elements/values (li.py:103-129); a Dict evaluates
its values against a copy of the ambient environment (identical in
content) and then rebinds its Function values to its own payload. -/
def Lit (x : PyObj) (env : Env := []) : Value :=
  match x with
  | .val v => v
  | .list xs => .list (evalElems xs env)
  | .dict kvs => .dict (rebindFuncs (evalVals kvs env))
  | .str s => .str s
  | .int n => .num (.int n)
  | .bool b => .num (.bool b)
  | .rat q => .num (.rat q)
  | .null => .null
termination_by (sizeOf x, 0)

/-- Constructor `List.__init__` (li.py:104-107): evaluate every element in order. -/
def evalElems (xs : List PyObj) (env : Env) : List Value :=
  match xs with
  | [] => []
  | x :: rest => _Eval x env :: evalElems rest env
termination_by (sizeOf xs, 0)

/-- Constructor `Dict.__init__` (li.py:117-121): evaluate every value in order. -/
def evalVals (kvs : List (String × PyObj)) (env : Env) :
    List (String × Value) :=
  match kvs with
  | [] => []
  | (k, v) :: rest => (k, _Eval v env) :: evalVals rest env
termination_by (sizeOf kvs, 0)
end

/-- Expression `dict(zip(self._params, args))` (li.py:190): the call layer of a
function application, binding parameter names to argument values
positionally. -/
def callLayer (params : List String) (args : List Value) : Env :=
  pyDict (params.zip args)

/-- Modelled from the spec: `_ExecList` is called by `Function.Eval` but
its body is not in the available source. Per the spec's evaluator
contract and strategy, it evaluates the statements in order against the
shared environment and returns the final statement's value, with a Null
default for an empty sequence. -/
def _ExecList (stmts : List PyObj) (fe : FunctionEnv) : Value :=
  (stmts.map (fun s => _Eval s fe.copy)).getLastD .null

/-- Method `Function.Eval` (li.py:187-190): run the body against a two-layer
environment whose call layer is the positional zip of parameters to
arguments. -/
def Function.Eval (params : List String) (defn : List PyObj) (env : Env)
    (args : List Value) : Value :=
  _ExecList defn ⟨Value.func params defn env, env, callLayer params args⟩

/-- Dispatch of `args[0].Eval(...)` as the built-ins use it: only a `Function` value
has an `Eval` method; `none` models the attribute failure otherwise. -/
def Value.callEval (f : Value) (args : List Value) : Option Value :=
  match f with
  | .func ps d e => some (Function.Eval ps d e args)
  | _ => none

/-- Python numeric cross-type equality (`1 == 1.0 == True`): every
`Number` payload compares through its rational value. -/
def NumPay.toRat : NumPay → Rat
  | .int n => n
  | .bool b => if b then 1 else 0
  | .rat q => q

mutual
/-- Python `==` on the payloads stored in Runtime Values (the comparison
`_Cond` performs on `val[i].val`, and `Literal.__eq__`, li.py:93-94).
Numbers compare by numeric value across int/bool/float; lists compare
elementwise; dicts (unique-keyed, insertion-ordered here) compare
entrywise; a `Function` payload is the function object itself, compared
by identity in Python and approximated structurally here. -/
def pyEq : Value → Value → Bool
  | .num a, .num b => a.toRat == b.toRat
  | .str a, .str b => a == b
  | .null, .null => true
  | .list xs, .list ys => pyEqList xs ys
  | .dict a, .dict b => pyEqDict a b
  | .func ps d e, .func ps' d' e' =>
    ps == ps' && beqPyList d d' && pyEqDict e e'
  | _, _ => false

def pyEqList : List Value → List Value → Bool
  | [], [] => true
  | x :: xs, y :: ys => pyEq x y && pyEqList xs ys
  | _, _ => false

def pyEqDict : List (String × Value) → List (String × Value) → Bool
  | [], [] => true
  | (k, v) :: a, (k', w) :: b => k == k' && pyEq v w && pyEqDict a b
  | _, _ => false

def beqPy : PyObj → PyObj → Bool
  | .null, .null => true
  | .bool a, .bool b => a == b
  | .int a, .int b => a == b
  | .rat a, .rat b => a == b
  | .str a, .str b => a == b
  | .list a, .list b => beqPyList a b
  | .dict a, .dict b => beqPyDict a b
  | .val a, .val b => pyEq a b
  | _, _ => false

def beqPyList : List PyObj → List PyObj → Bool
  | [], [] => true
  | x :: xs, y :: ys => beqPy x y && beqPyList xs ys
  | _, _ => false

def beqPyDict : List (String × PyObj) → List (String × PyObj) → Bool
  | [], [] => true
  | (k, v) :: a, (k', w) :: b => k == k' && beqPy v w && beqPyDict a b
  | _, _ => false
end

/-- Builtin helper `_Cond` (li.py:227-228): the chained conjunction of `func` over every
adjacent payload pair of the argument list. An out-of-range default never
arises since every generated index is in range. -/
def _Cond (f : Value → Value → Bool) (val : List Value) : Bool :=
  (List.range (val.length - 1)).all
    (fun i => f (val.getD i .null) (val.getD (i + 1) .null))

/-- Builtin `_Eq` (li.py:259-260): chained payload equality. -/
def _Eq (args : List Value) : Bool :=
  _Cond pyEq args

/-- Builtin `_NEq` (li.py:263-264): negation of `_Eq`. -/
def _NEq (args : List Value) : Bool :=
  !_Eq args

/-- Python `len(x.val)`: defined for text, list and dict payloads;
`none` models the `TypeError` on the other payloads. -/
def pyLen : Value → Option Nat
  | .str s => some s.length
  | .list xs => some xs.length
  | .dict kvs => some kvs.length
  | _ => none

/-- Builtin `_Len` (li.py:283-284): the sum of the payload lengths of all
arguments; fails as soon as one payload has no length. -/
def _Len (args : List Value) : Option Nat :=
  (args.mapM pyLen).map List.sum

/-- A Python slice bound `xs[:i]` / `xs[i:]` normalized to a position in
`0..n`: negative indices count from the end, out-of-range indices clamp. -/
def pyIdx (n : Nat) (i : Int) : Nat :=
  if i < 0 then ((n : Int) + i).toNat else min i.toNat n

/-- A `Number` payload used as a slice index: int and bool are accepted
(bool as 0/1); a float index is a `TypeError` in Python. -/
def asIndex : NumPay → Option Int
  | .int n => some n
  | .bool b => some (if b then 1 else 0)
  | .rat _ => none

/-- Builtin `_Cut` (li.py:296-297): slice the first argument's payload at the
second argument's numeric payload and return the bare two-element Python
list `[Lit(prefix), Lit(suffix)]` — a raw list of two values, not itself
re-wrapped as a `List` value. Works on list and text payloads (the
sliceable ones); `none` models the failures on every other shape. -/
def _Cut (args : List Value) : Option (List Value) :=
  match args with
  | .list xs :: .num p :: _ =>
    match asIndex p with
    | some i =>
      some [Lit (.list ((xs.take (pyIdx xs.length i)).map .val)),
            Lit (.list ((xs.drop (pyIdx xs.length i)).map .val))]
    | none => none
  | .str s :: .num p :: _ =>
    match asIndex p with
    | some i =>
      some [Lit (.str (s.take (pyIdx s.length i))),
            Lit (.str (s.drop (pyIdx s.length i)))]
    | none => none
  | _ => none

/-- Builtin `_Map` (li.py:300-301): apply the first argument to each element of
the second argument's list payload, in order. In Python 2 `map` returns
an eagerly materialized list. `none` models the failures when the first
argument has no `Eval` method or the second argument's payload is not a
list. -/
def _Map (args : List Value) : Option (List Value) :=
  match args with
  | .func ps d e :: .list xs :: _ =>
    some (xs.map (fun x => Function.Eval ps d e [x]))
  | _ => none

/-- Builtin `_Assert` (li.py:312-314): when `_Eq` fails on the arguments, print a
diagnostic naming `args[0]` and `args[1]`; otherwise print nothing. The
result is `some` of the optional diagnostic (`none` would model an
uncaught failure, which never occurs: the diagnostic branch is reached
only with at least two arguments). -/
def _Assert (args : List Value) : Option (Option (Value × Value)) :=
  if _Eq args then some none
  else
    match args with
    | a :: b :: _ => some (some (a, b))
    | _ => none

/-- The `TYPES` display-name table (li.py:201-208). -/
def TYPES : Value → String
  | .list _ => "List"
  | .dict _ => "Dict"
  | .str _ => "String"
  | .num _ => "Number"
  | .func _ _ _ => "Function"
  | .null => "Null"

/-- Builtin `_Type` (li.py:321-322): the display name of the first argument's
runtime variant. -/
def _Type (args : List Value) : Option String :=
  match args with
  | a :: _ => some (TYPES a)
  | _ => none

/-- A `Number` or `Null` payload re-encoded as bare raw data. -/
def NumPay.toPyObj : NumPay → PyObj
  | .int n => .int n
  | .bool b => .bool b
  | .rat q => .rat q

mutual
/-- The `json` re-encoding (li.py:99-143, 184-185): `Number` and `Null`
return their bare payload; `String` uses the generic `Literal.json` wrap
under the single key `lit`; `List` and `Dict` wrap the recursive
re-encoding of their elements/values under `lit`; `Function` returns its
original definition record with keys `params` and `def`, without its
captured environment. -/
def Value.json : Value → PyObj
  | .str s => .dict [("lit", .str s)]
  | .num p => p.toPyObj
  | .null => .null
  | .list xs => .dict [("lit", .list (jsonElems xs))]
  | .dict kvs => .dict [("lit", .dict (jsonVals kvs))]
  | .func ps d _ => .dict [("params", .list (ps.map PyObj.str)), ("def", .list d)]

def jsonElems : List Value → List PyObj
  | [] => []
  | x :: xs => x.json :: jsonElems xs

def jsonVals : List (String × Value) → List (String × PyObj)
  | [] => []
  | (k, v) :: rest => (k, v.json) :: jsonVals rest
end

/-! ## Helper lemmas -/

theorem jsonElems_eq_map (xs : List Value) :
    jsonElems xs = xs.map Value.json := by
  induction xs with
  | nil => simp [jsonElems]
  | cons x rest ih => simp [jsonElems, ih]

theorem jsonVals_eq_map (kvs : List (String × Value)) :
    jsonVals kvs = kvs.map (fun kv => (kv.1, kv.2.json)) := by
  induction kvs with
  | nil => simp [jsonVals]
  | cons kv rest ih =>
    obtain ⟨k, v⟩ := kv
    simp [jsonVals, ih]

theorem _Eval_val (v : Value) (env : Env) : _Eval (.val v) env = v := by
  have h1 : _Eval (.val v) env = Lit (.val v) env := by
    rw [_Eval]
    intro kvs h
    simp at h
  rw [h1, Lit]

theorem evalElems_map_val (l : List Value) (env : Env) :
    evalElems (l.map PyObj.val) env = l := by
  induction l with
  | nil => rw [List.map_nil, evalElems]
  | cons x rest ih =>
    rw [List.map_cons, evalElems, _Eval_val, ih]

theorem dset_eq_append (m : Env) (k : String) (v : Value)
    (h : k ∉ m.map Prod.fst) : dset m k v = m ++ [(k, v)] := by
  induction m with
  | nil => simp [dset]
  | cons hd tl ih =>
    obtain ⟨k₀, v₀⟩ := hd
    simp only [List.map_cons, List.mem_cons, not_or] at h
    rw [dset, if_neg (fun he => h.1 he.symm), ih h.2]
    rfl

theorem dupdate_eq_append (base : Env) (l : Env)
    (hdisj : ∀ p ∈ l, p.1 ∉ base.map Prod.fst)
    (hl : (l.map Prod.fst).Nodup) : dupdate base l = base ++ l := by
  induction l generalizing base with
  | nil => simp [dupdate]
  | cons kv rest ih =>
    obtain ⟨k, v⟩ := kv
    simp only [List.map_cons, List.nodup_cons] at hl
    show dupdate (dset base k v) rest = _
    rw [dset_eq_append base k v (hdisj (k, v) (by simp))]
    rw [ih (base ++ [(k, v)]) (by
      intro p hp
      simp only [List.map_append, List.mem_append, List.map_cons, List.map_nil,
        List.mem_singleton, not_or]
      refine ⟨hdisj p (by simp [hp]), ?_⟩
      intro hpk
      exact hl.1 (hpk ▸ List.mem_map_of_mem Prod.fst hp)) hl.2]
    simp

theorem pyDict_eq_self (l : Env) (hl : (l.map Prod.fst).Nodup) :
    pyDict l = l := by
  rw [pyDict, dupdate_eq_append [] l (by simp) hl]
  simp

theorem zip_keys (ps : List String) (vs : List Value) :
    (ps.zip vs).map Prod.fst = ps.take vs.length := by
  induction ps generalizing vs with
  | nil => simp
  | cons p rest ih =>
    cases vs with
    | nil => simp
    | cons v vrest => simp [ih]

theorem zip_dget_bound (ps : List String) (vs : List Value) (i : Nat)
    (hnd : ps.Nodup) (hip : i < ps.length) (hiv : i < vs.length) :
    dget (ps.zip vs) (ps.getD i "") = some (vs.getD i Value.null) := by
  induction ps generalizing vs i with
  | nil => simp at hip
  | cons p rest ih =>
    cases vs with
    | nil => simp at hiv
    | cons v vrest =>
      cases i with
      | zero => simp [dget]
      | succ j =>
        simp only [List.length_cons, Nat.succ_lt_succ_iff] at hip hiv
        show dget ((p, v) :: rest.zip vrest) (rest.getD j "") =
          some (vrest.getD j Value.null)
        rw [dget, if_neg, ih vrest j hnd.of_cons hip hiv]
        intro hpj
        have hmem : rest.getD j "" ∈ rest := by
          rw [List.getD_eq_getElem _ _ hip]
          exact List.getElem_mem hip
        rw [← hpj] at hmem
        exact (List.nodup_cons.mp hnd).1 hmem

theorem zip_dget_unbound (ps : List String) (vs : List Value) (i : Nat)
    (hnd : ps.Nodup) (hiv : vs.length ≤ i) (hip : i < ps.length) :
    dget (ps.zip vs) (ps.getD i "") = none := by
  induction ps generalizing vs i with
  | nil => simp at hip
  | cons p rest ih =>
    cases vs with
    | nil => simp [dget]
    | cons v vrest =>
      cases i with
      | zero => simp at hiv
      | succ j =>
        simp only [List.length_cons, Nat.succ_le_succ_iff] at hiv
        simp only [List.length_cons, Nat.succ_lt_succ_iff] at hip
        show dget ((p, v) :: rest.zip vrest) (rest.getD j "") = none
        rw [dget, if_neg, ih vrest j hnd.of_cons hiv hip]
        intro hpj
        have hmem : rest.getD j "" ∈ rest := by
          rw [List.getD_eq_getElem _ _ hip]
          exact List.getElem_mem hip
        rw [← hpj] at hmem
        exact (List.nodup_cons.mp hnd).1 hmem

theorem zip_dget_values (ps : List String) (vs : List Value) (k : String)
    (v : Value) (h : dget (ps.zip vs) k = some v) : v ∈ vs.take ps.length := by
  induction ps generalizing vs with
  | nil => simp [dget] at h
  | cons p rest ih =>
    cases vs with
    | nil => simp [dget] at h
    | cons w vrest =>
      simp only [List.zip_cons_cons, dget] at h
      by_cases hp : p = k
      · rw [if_pos hp] at h
        simp [← Option.some_inj.mp h]
      · rw [if_neg hp] at h
        simpa using Or.inr (ih vrest h)

/-! ## Claim theorems -/

/-- C1: writing value `v` to key `k` in a function-call environment
stores it in the call layer when `k` already has a call-layer binding or
`k` has no defining-layer binding, and otherwise (`k` exists only in the
defining layer) mutates the defining layer in place; hence an assignment
to a call-bound parameter name or to a fresh name never changes the
defining layer, while an assignment to a captured free name does. -/
theorem setitem_write_layer (fe : FunctionEnv) (k : String) (v : Value) :
    ((dget fe._run_env k).isSome = true ∨ dget fe._env k = none →
      (fe.setItem k v)._env = fe._env ∧
      (fe.setItem k v)._run_env = dset fe._run_env k v ∧
      dget (fe.setItem k v)._run_env k = some v) ∧
    (dget fe._run_env k = none → (dget fe._env k).isSome = true →
      (fe.setItem k v)._run_env = fe._run_env ∧
      (fe.setItem k v)._env = dset fe._env k v ∧
      dget (fe.setItem k v)._env k = some v) := by
  constructor
  · intro h
    have hc : ((dget fe._run_env k).isSome || (dget fe._env k).isNone) = true := by
      rcases h with h | h
      · simp [h]
      · simp [h]
    simp [FunctionEnv.setItem, hc]
  · intro h1 h2
    obtain ⟨w, hw⟩ := Option.isSome_iff_exists.mp h2
    have hc : ((dget fe._run_env k).isSome || (dget fe._env k).isNone) = false := by
      simp [h1, hw]
    simp [FunctionEnv.setItem, hc]

/-- Witness for C1: with defining layer `x ↦ 0` and empty call layer,
assigning `x` mutates the defining layer; with call layer `y ↦ 1`,
assigning `y` stays in the call layer. -/
theorem setitem_write_layer_witness :
    ((FunctionEnv.setItem ⟨Value.null, [("x", Value.num (.int 0))], []⟩ "x"
        (Value.num (.int 2)))._run_env = [] ∧
      dget (FunctionEnv.setItem ⟨Value.null, [("x", Value.num (.int 0))], []⟩ "x"
        (Value.num (.int 2)))._env "x" = some (Value.num (.int 2))) ∧
    ((FunctionEnv.setItem ⟨Value.null, [("x", Value.num (.int 0))],
        [("y", Value.num (.int 1))]⟩ "y" (Value.num (.int 2)))._env =
      [("x", Value.num (.int 0))] ∧
      dget (FunctionEnv.setItem ⟨Value.null, [("x", Value.num (.int 0))],
        [("y", Value.num (.int 1))]⟩ "y" (Value.num (.int 2)))._run_env "y" =
      some (Value.num (.int 2))) := by
  constructor
  · have h := (setitem_write_layer ⟨Value.null, [("x", Value.num (.int 0))], []⟩
      "x" (Value.num (.int 2))).2 rfl rfl
    exact ⟨h.1, h.2.2⟩
  · have h := (setitem_write_layer ⟨Value.null, [("x", Value.num (.int 0))],
      [("y", Value.num (.int 1))]⟩ "y" (Value.num (.int 2))).1 (Or.inl rfl)
    exact ⟨h.1, h.2.2⟩

/-- C10: every read of a function-call environment (`get` with or
without a default, or subscript lookup) leaves both layers unchanged, and
the lookup is answered from the freshly built overlay copy in which
call-layer bindings shadow defining-layer bindings. -/
theorem read_frame_and_shadowing (fe : FunctionEnv) (k : String)
    (d : Option Value)
    (henv : (fe._env.map Prod.fst).Nodup)
    (hrun : (fe._run_env.map Prod.fst).Nodup) :
    (fe.get k d).2 = fe ∧ (fe.get k).2 = fe ∧ (fe.getItem k).2 = fe ∧
    (fe.getItem k).1 = (dget fe._run_env k).or (dget fe._env k) ∧
    (fe.get k d).1 = ((dget fe._run_env k).or (dget fe._env k)).or d := by
  have hcopy : dget fe.copy k = (dget fe._run_env k).or (dget fe._env k) := by
    rw [FunctionEnv.copy, dget_dupdate _ _ _ hrun, dget_dupdate _ _ _ henv]
    simp
  exact ⟨rfl, rfl, rfl, by rw [FunctionEnv.getItem, hcopy],
    by rw [FunctionEnv.get, hcopy]⟩

/-- Witness for C10: with `x` in both layers, reading `x` returns the
call-layer value and leaves the environment intact. -/
theorem read_frame_and_shadowing_witness :
    (FunctionEnv.getItem ⟨Value.null, [("x", Value.num (.int 0))],
        [("x", Value.num (.int 1))]⟩ "x").1 = some (Value.num (.int 1)) ∧
    (FunctionEnv.getItem ⟨Value.null, [("x", Value.num (.int 0))],
        [("x", Value.num (.int 1))]⟩ "x").2 =
      ⟨Value.null, [("x", Value.num (.int 0))], [("x", Value.num (.int 1))]⟩ := by
  have h := read_frame_and_shadowing
    ⟨Value.null, [("x", Value.num (.int 0))], [("x", Value.num (.int 1))]⟩
    "x" none (by simp) (by simp)
  refine ⟨?_, h.2.2.1⟩
  rw [h.2.2.2.1]
  rfl

/-- C2: the call layer of a function application binds parameters to
arguments positionally up to the shorter of the two lists — it is exactly
the positional zip — so trailing parameters are left unbound, trailing
extra arguments are silently discarded, and binding never fails. -/
theorem callLayer_arity (params : List String) (args : List Value)
    (hnd : params.Nodup) :
    callLayer params args = params.zip args ∧
    (callLayer params args).length = min params.length args.length ∧
    (∀ i, i < params.length → i < args.length →
      dget (callLayer params args) (params.getD i "") =
        some (args.getD i Value.null)) ∧
    (∀ i, args.length ≤ i → i < params.length →
      dget (callLayer params args) (params.getD i "") = none) ∧
    (∀ k v, dget (callLayer params args) k = some v →
      v ∈ args.take params.length) := by
  have hkeys : ((params.zip args).map Prod.fst).Nodup := by
    rw [zip_keys]
    exact List.Nodup.sublist (List.take_sublist _ _) hnd
  have hself : callLayer params args = params.zip args := by
    rw [callLayer, pyDict_eq_self _ hkeys]
  refine ⟨hself, ?_, ?_, ?_, ?_⟩
  · rw [hself, List.length_zip]
  · intro i h1 h2
    rw [hself]
    exact zip_dget_bound _ _ _ hnd h1 h2
  · intro i h1 h2
    rw [hself]
    exact zip_dget_unbound _ _ _ hnd h1 h2
  · intro k v h
    rw [hself] at h
    exact zip_dget_values _ _ _ _ h

/-- Witness for C2: parameters `[a, b]` with one argument bind `a` and
leave `b` unbound; with three arguments the third is discarded. -/
theorem callLayer_arity_witness :
    dget (callLayer ["a", "b"] [Value.num (.int 7)]) "a" =
      some (Value.num (.int 7)) ∧
    dget (callLayer ["a", "b"] [Value.num (.int 7)]) "b" = none ∧
    callLayer ["a", "b"]
      [Value.num (.int 7), Value.num (.int 8), Value.num (.int 9)] =
      [("a", Value.num (.int 7)), ("b", Value.num (.int 8))] := by
  have h1 := callLayer_arity ["a", "b"] [Value.num (.int 7)] (by simp)
  have h3 := callLayer_arity ["a", "b"]
    [Value.num (.int 7), Value.num (.int 8), Value.num (.int 9)] (by simp)
  refine ⟨?_, ?_, h3.1⟩
  · simpa using h1.2.2.1 0 (by decide) (by decide)
  · simpa using h1.2.2.2.1 1 (by decide) (by decide)

/-- C3: the `json` re-encoding is asymmetric across variants — `Number`
and `Null` return their bare raw payload with no wrapping key; `String`,
`List` and `Dict` return a one-key mapping under `lit` (containers
recursively re-encoding their elements/values); a `Function` returns its
original `params`/`def` definition record, independent of its captured
environment. -/
theorem json_variant_shapes :
    (∀ p, Value.json (.num p) = p.toPyObj) ∧
    Value.json .null = .null ∧
    (∀ s, Value.json (.str s) = .dict [("lit", .str s)]) ∧
    (∀ xs, Value.json (.list xs) =
      .dict [("lit", .list (xs.map Value.json))]) ∧
    (∀ kvs, Value.json (.dict kvs) =
      .dict [("lit", .dict (kvs.map (fun kv => (kv.1, kv.2.json))))]) ∧
    (∀ ps d e, Value.json (.func ps d e) =
      .dict [("params", .list (ps.map PyObj.str)), ("def", .list d)]) ∧
    (∀ ps d e e', Value.json (.func ps d e) = Value.json (.func ps d e')) := by
  refine ⟨fun p => by simp [Value.json], by simp [Value.json],
    fun s => by simp [Value.json],
    fun xs => by simp [Value.json, jsonElems_eq_map],
    fun kvs => by simp [Value.json, jsonVals_eq_map],
    fun ps d e => by simp [Value.json],
    fun ps d e e' => by simp [Value.json]⟩

/-- C4: `eq` is the chained conjunction of payload equality over every
adjacent argument pair, and is vacuously true on zero or one argument. -/
theorem eq_chained_pairwise (args : List Value) :
    (_Eq args = true ↔ ∀ i, i + 1 < args.length →
      pyEq (args.getD i Value.null) (args.getD (i + 1) Value.null) = true) ∧
    _Eq ([] : List Value) = true ∧
    (∀ a, _Eq [a] = true) := by
  refine ⟨?_, rfl, fun a => rfl⟩
  rw [_Eq, _Cond, List.all_eq_true]
  constructor
  · intro h i hi
    exact h i (List.mem_range.mpr (by omega))
  · intro h i hi
    have hlt := List.mem_range.mp hi
    exact h i (by omega)

theorem mapM_pyLen (l : List Value) (h : ∀ a ∈ l, (pyLen a).isSome = true) :
    l.mapM pyLen = some (l.map (fun a => (pyLen a).getD 0)) := by
  induction l with
  | nil => rfl
  | cons a rest ih =>
    obtain ⟨n, hn⟩ := Option.isSome_iff_exists.mp (h a (by simp))
    rw [List.mapM_cons, hn, ih (fun x hx => h x (by simp [hx]))]
    simp [hn]

/-- C5: `len` returns the sum of the payload lengths of all arguments
combined, whenever every argument's payload has a length. -/
theorem len_sums_all_args (args : List Value)
    (h : ∀ a ∈ args, (pyLen a).isSome = true) :
    _Len args = some ((args.map (fun a => (pyLen a).getD 0)).sum) := by
  rw [_Len, mapM_pyLen args h]
  rfl

/-- Witness for C4: `eq` on numeric payloads `1, True, 1.0` is true
(adjacent pairs are equal across Python's numeric collapse), and on zero
arguments it is vacuously true. -/
theorem eq_chained_pairwise_witness :
    _Eq [Value.num (.int 1), Value.num (.bool true), Value.num (.rat 1)] =
      true ∧
    _Eq ([] : List Value) = true := by
  refine ⟨(eq_chained_pairwise _).1.mpr ?_, (eq_chained_pairwise []).2.1⟩
  intro i hi
  have hb : i < 2 := by
    simp only [List.length_cons, List.length_nil] at hi
    omega
  interval_cases i
  · show pyEq (Value.num (.int 1)) (Value.num (.bool true)) = true
    simp [pyEq, NumPay.toRat]
  · show pyEq (Value.num (.bool true)) (Value.num (.rat 1)) = true
    simp [pyEq, NumPay.toRat]

/-- Witness for C5: `len` on two list arguments of lengths 3 and 2
returns 5, the sum across the arguments. -/
theorem len_sums_all_args_witness :
    _Len [Value.list [Value.null, Value.null, Value.null],
          Value.list [Value.null, Value.null]] = some 5 := by
  have h := len_sums_all_args
    [Value.list [Value.null, Value.null, Value.null],
     Value.list [Value.null, Value.null]]
    (by
      intro a ha
      simp only [List.mem_cons, List.not_mem_nil, or_false] at ha
      rcases ha with h | h <;> subst h <;> rfl)
  simpa [pyLen] using h

/-- C6: `map` applied to a Function and a List argument with payload
`e₁ … eₙ` produces the eagerly materialized ordered list
`[f e₁, …, f eₙ]`: the result is `some` of exactly that list, its length
is the payload's length, and its `i`-th element is the application of the
function to the `i`-th payload element. -/
theorem map_ordered_eager (ps : List String) (d : List PyObj) (e : Env)
    (xs rest : List Value) :
    _Map (Value.func ps d e :: Value.list xs :: rest) =
      some (xs.map (fun x => Function.Eval ps d e [x])) ∧
    (∀ ys, _Map (Value.func ps d e :: Value.list xs :: rest) = some ys →
      ys.length = xs.length ∧
      ∀ i, i < xs.length →
        ys.getD i Value.null =
          Function.Eval ps d e [xs.getD i Value.null]) := by
  refine ⟨rfl, ?_⟩
  intro ys hys
  have hy : ys = xs.map (fun x => Function.Eval ps d e [x]) :=
    (Option.some.inj hys).symm
  subst hy
  refine ⟨by simp, ?_⟩
  intro i hi
  rw [List.getD_eq_getElem _ _ (by simpa using hi), List.getElem_map,
    List.getD_eq_getElem _ _ hi]

/-- Witness for C6: mapping a (trivial-bodied) function over a two-element
list yields the two applications in order. -/
theorem map_ordered_eager_witness :
    _Map [Value.func [] [] [], Value.list [Value.num (.int 1), Value.num (.int 2)]] =
      some [Value.null, Value.null] ∧
    ([Value.null, Value.null] : List Value).length = 2 := by
  have h := map_ordered_eager [] [] [] [Value.num (.int 1), Value.num (.int 2)] []
  have h1 := h.1
  have h2 := (h.2 [Value.null, Value.null] h1).1
  exact ⟨h1, h2⟩

/-- C7: `Lit` is idempotent — an already-constructed Runtime Value is
returned unchanged, so `Lit (Lit x e) e' = Lit x e` — otherwise it
dispatches on the raw payload's native shape (sequence to List, mapping
to Dict, text to String, numeric or boolean to Number, no-value to
Null), and the environment argument defaults to an empty environment
when omitted. -/
theorem lit_idempotent_dispatch :
    (∀ (x : PyObj) (env env' : Env), Lit (.val (Lit x env)) env' = Lit x env) ∧
    (∀ (v : Value) (env : Env), Lit (.val v) env = v) ∧
    (∀ x : PyObj, Lit x = Lit x ([] : Env)) ∧
    (∀ xs env, TYPES (Lit (.list xs) env) = "List") ∧
    (∀ kvs env, TYPES (Lit (.dict kvs) env) = "Dict") ∧
    (∀ s env, TYPES (Lit (.str s) env) = "String") ∧
    (∀ n env, TYPES (Lit (.int n) env) = "Number") ∧
    (∀ b env, TYPES (Lit (.bool b) env) = "Number") ∧
    (∀ q env, TYPES (Lit (.rat q) env) = "Number") ∧
    (∀ env, TYPES (Lit .null env) = "Null") := by
  refine ⟨fun x env env' => by rw [Lit], fun v env => by rw [Lit],
    fun x => rfl,
    fun xs env => by rw [Lit]; rfl,
    fun kvs env => by rw [Lit]; rfl,
    fun s env => by rw [Lit]; rfl,
    fun n env => by rw [Lit]; rfl,
    fun b env => by rw [Lit]; rfl,
    fun q env => by rw [Lit]; rfl,
    fun env => by rw [Lit]; rfl⟩

/-- C8: `cut` on a list payload `xs` at an index `0 ≤ i ≤ |xs|` returns
the bare two-element pair `[Lit (take i xs), Lit (drop i xs)]` — a raw
list of two values, not itself re-wrapped as a `List` value — whose first
element wraps the prefix and second the suffix; at index 0 the first part
is empty and the second the full list, and at `|xs|` conversely. -/
theorem cut_splits (xs : List Value) (i : Int) (rest : List Value)
    (h0 : 0 ≤ i) (h1 : i ≤ (xs.length : Int)) :
    _Cut (Value.list xs :: Value.num (.int i) :: rest) =
      some [Value.list (xs.take i.toNat), Value.list (xs.drop i.toNat)] ∧
    (i = 0 → _Cut (Value.list xs :: Value.num (.int i) :: rest) =
      some [Value.list [], Value.list xs]) ∧
    (i = (xs.length : Int) →
      _Cut (Value.list xs :: Value.num (.int i) :: rest) =
      some [Value.list xs, Value.list []]) := by
  have hidx : pyIdx xs.length i = i.toNat := by
    rw [pyIdx, if_neg (by omega)]
    exact min_eq_left (by omega)
  have hmain : _Cut (Value.list xs :: Value.num (.int i) :: rest) =
      some [Value.list (xs.take i.toNat), Value.list (xs.drop i.toNat)] := by
    show some [Lit (.list ((xs.take (pyIdx xs.length i)).map .val)),
               Lit (.list ((xs.drop (pyIdx xs.length i)).map .val))] = _
    rw [hidx, Lit, Lit, evalElems_map_val, evalElems_map_val]
  refine ⟨hmain, ?_, ?_⟩
  · intro hz
    subst hz
    simpa using hmain
  · intro hl
    rw [hmain, hl]
    simp

/-- Witness for C8: cutting `[1,2,3,4]` at index 2 gives payloads
`[1,2]` and `[3,4]`. -/
theorem cut_splits_witness :
    _Cut [Value.list [Value.num (.int 1), Value.num (.int 2),
                      Value.num (.int 3), Value.num (.int 4)],
          Value.num (.int 2)] =
      some [Value.list [Value.num (.int 1), Value.num (.int 2)],
            Value.list [Value.num (.int 3), Value.num (.int 4)]] := by
  have h := (cut_splits [Value.num (.int 1), Value.num (.int 2),
      Value.num (.int 3), Value.num (.int 4)] 2 [] (by decide) (by decide)).1
  exact h

/-- C9: `assert` never fails: it always returns (its result is `some`),
prints nothing when the arguments satisfy the `eq` contract, and on
mismatch emits a diagnostic naming the first two arguments (a mismatch
guarantees at least two arguments exist) while execution continues. -/
theorem assert_nonfatal (args : List Value) :
    (∃ out, _Assert args = some out) ∧
    (_Eq args = true → _Assert args = some none) ∧
    (_Eq args = false →
      ∃ a b rest, args = a :: b :: rest ∧
        _Assert args = some (some (a, b))) := by
  have hlong : _Eq args = false → ∃ a b rest, args = a :: b :: rest := by
    intro hf
    rcases args with _ | ⟨a, _ | ⟨b, rest⟩⟩
    · rw [show _Eq ([] : List Value) = true from rfl] at hf
      exact Bool.noConfusion hf
    · rw [show _Eq [a] = true from rfl] at hf
      exact Bool.noConfusion hf
    · exact ⟨a, b, rest, rfl⟩
  refine ⟨?_, ?_, ?_⟩
  · cases he : _Eq args with
    | false =>
      obtain ⟨a, b, rest, hab⟩ := hlong he
      subst hab
      exact ⟨some (a, b), by simp [_Assert, he]⟩
    | true => exact ⟨none, by simp [_Assert, he]⟩
  · intro ht
    simp [_Assert, ht]
  · intro hf
    obtain ⟨a, b, rest, hab⟩ := hlong hf
    subst hab
    exact ⟨a, b, rest, rfl, by simp [_Assert, hf]⟩

/-- Witness for C9: on payloads `1, 2` the diagnostic names the two
arguments; on `1, 1` there is no output. -/
theorem assert_nonfatal_witness :
    _Assert [Value.num (.int 1), Value.num (.int 2)] =
      some (some (Value.num (.int 1), Value.num (.int 2))) ∧
    _Assert [Value.num (.int 1), Value.num (.int 1)] = some none := by
  have hf : _Eq [Value.num (.int 1), Value.num (.int 2)] = false := by
    rw [show _Eq [Value.num (.int 1), Value.num (.int 2)] =
      (pyEq (Value.num (.int 1)) (Value.num (.int 2)) && true) from rfl]
    simp [pyEq, NumPay.toRat]
  have ht : _Eq [Value.num (.int 1), Value.num (.int 1)] = true := by
    rw [show _Eq [Value.num (.int 1), Value.num (.int 1)] =
      (pyEq (Value.num (.int 1)) (Value.num (.int 1)) && true) from rfl]
    simp [pyEq]
  constructor
  · obtain ⟨a, b, rest, hab, hres⟩ :=
      (assert_nonfatal [Value.num (.int 1), Value.num (.int 2)]).2.2 hf
    obtain ⟨h1, h2⟩ := List.cons.inj hab.symm
    obtain ⟨h3, h4⟩ := List.cons.inj h2
    rw [hres, h1, h3]
  · exact (assert_nonfatal [Value.num (.int 1), Value.num (.int 1)]).2.1 ht

end Li
